import Mathlib

/-
  Verification of the rxdaemon core against its natural-language specification.

  The Go sources are shallowly embedded below:
  - the lifecycle `State`, `RunPolicy` and option types (service_options.go,
    the state constants of the newer generation),
  - `RunContinuousManager.Manage` (service_manager.go) as a trace-producing
    function driven by an explicit list of scheduler events,
  - the intracom `topic` operations (intracom/topic.go),
  - the `serviceContext` operations and the per-snapshot bodies of the
    watch loops (the unnamed service-context file of the newer generation).

  Durations are naturals (nanoseconds); timers only delay execution, so the
  trace semantics abstracts them into the event list. Channels and contexts
  are opaque handles (naturals).
-/

namespace Rxd

/-- Lifecycle state of a service. Embeds the `State` constants
`StateInit, StateIdle, StateRun, StateStop, StateExit` used by
service_manager.go (the newer generation of the code). -/
inductive State where
  | init
  | idle
  | run
  | stop
  | exit
deriving DecidableEq, Fintype

/-- RunPolicy is a string type in service_options.go. -/
abbrev RunPolicy := String

/-- Embeds `RunUntilStoppedPolicy RunPolicy = "until_stopped"`. -/
def RunUntilStoppedPolicy : RunPolicy := "until_stopped"

/-- Embeds `RunOnceIfSuccessPolicy RunPolicy = "run_once_success"`. -/
def RunOnceIfSuccessPolicy : RunPolicy := "run_once_success"

/-- Embeds `RunOncePolicy RunPolicy = "run_once_unbiased"`. -/
def RunOncePolicy : RunPolicy := "run_once_unbiased"

/-- Embeds `ServiceOpts` of service_options.go (a single RunPolicy field). -/
structure ServiceOpts where
  runPolicy : RunPolicy
deriving DecidableEq

/-- Modelled from the spec: `DaemonService` is `{ Name, Runner, Manager, Options }`
(its declaration is not among the given sources; `Manage` reads only `ds.Name`
and `ds.Runner`). The runner is not a field here: its four callbacks are
represented by the outcomes observed at each invocation, which the event
list below supplies. -/
structure DaemonService where
  Name : String
  Options : ServiceOpts
deriving DecidableEq

/-- Outcome of one invocation of a runner callback: returned nil, returned a
non-nil error, or panicked. -/
inductive COutcome where
  | ok
  | err
  | panicked
deriving DecidableEq, Fintype

/-- One scheduler event observed by the `select` inside `Manage`: either the
context Done channel fires first, or the state timer fires and the callback
of the current state runs with the given outcome. -/
inductive ManagerEvent where
  | cancelled
  | timer (o : COutcome)
deriving DecidableEq

/-- Observable actions of one run of `Manage`, in program order:
`update name s` is a call `updateState(name, s)`; `callback s o` is an
invocation of the runner callback of state `s` returning outcome `o`;
`logErr` is an error log of a callback error; `logPanic` is the error log
emitted by the deferred recover. -/
inductive TraceEntry where
  | update (name : String) (s : State)
  | callback (s : State) (o : COutcome)
  | logErr
  | logPanic
deriving DecidableEq

/-- Embeds `ManagerStateTimeouts map[State]time.Duration`. -/
abbrev ManagerStateTimeouts := List (State × Nat)

/-- Embeds the `RunContinuousManager` struct of service_manager.go. -/
structure RunContinuousManager where
  DefaultDelay : Nat
  StartupDelay : Nat
  StateTimeouts : ManagerStateTimeouts

/-- Embeds `NewDefaultManager` (no options applied): StartupDelay 10ns,
empty timeout table, zero-valued DefaultDelay. -/
def NewDefaultManager : RunContinuousManager :=
  { DefaultDelay := 0, StartupDelay := 10, StateTimeouts := [] }

/-- The state assignment performed by the `switch state` block of `Manage`
when the callback of `state` returns (`errored` says whether it returned a
non-nil error): Init goes to Idle or on error to Stop; Idle goes to Run or
on error to Stop; Run always goes to Stop; Stop always goes to Init.
The Exit row is unreachable (the loop guard is `state != StateExit`) and is
mapped to itself. -/
def nextState : State → Bool → State
  | State.init, false => State.idle
  | State.init, true => State.stop
  | State.idle, false => State.run
  | State.idle, true => State.stop
  | State.run, _ => State.stop
  | State.stop, _ => State.init
  | State.exit, _ => State.exit

/-- True exactly on `StateStop`; the `hasStopped` flag is set after the Stop
case of the switch runs and reset at the start of every timer iteration, so
the flag entering the next iteration equals `isStop` of the state whose
callback just ran. -/
def isStop : State → Bool
  | State.stop => true
  | _ => false

/-- The actions performed after the loop of `Manage` exits (lines 120-131 of
service_manager.go): if `hasStopped` is false the runner Stop is invoked
(logging its error if any), then `updateState(name, StateExit)` runs. A
panic inside that final Stop unwinds to the deferred recover, which logs it
and returns, skipping the final updateState. -/
def finishTrace (name : String) (hasStopped : Bool) (finalStop : COutcome) : List TraceEntry :=
  if hasStopped then [TraceEntry.update name State.exit]
  else
    match finalStop with
    | COutcome.ok => [TraceEntry.callback State.stop COutcome.ok, TraceEntry.update name State.exit]
    | COutcome.err => [TraceEntry.callback State.stop COutcome.err, TraceEntry.logErr,
        TraceEntry.update name State.exit]
    | COutcome.panicked => [TraceEntry.callback State.stop COutcome.panicked, TraceEntry.logPanic]

/-- The loop of `Manage` (lines 60-118 of service_manager.go), driven by the
event list. Each iteration first publishes the state it is about to enter,
then selects: on cancellation the state becomes Exit and the loop ends; on a
timer the callback of the current state runs and the switch picks the next
state. A panicking callback unwinds to the deferred recover, which logs the
panic and returns. The second component reports whether `Manage` returned
within the supplied events; when they run out mid-loop only the already
published update of the pending iteration is recorded. -/
def manageLoop (name : String) (finalStop : COutcome) :
    List ManagerEvent → State → Bool → List TraceEntry × Bool
  | [], s, b =>
      if s = State.exit then (finishTrace name b finalStop, true)
      else ([TraceEntry.update name s], false)
  | e :: rest, s, b =>
      if s = State.exit then (finishTrace name b finalStop, true)
      else
        match e with
        | ManagerEvent.cancelled =>
            (TraceEntry.update name s :: finishTrace name b finalStop, true)
        | ManagerEvent.timer COutcome.panicked =>
            ([TraceEntry.update name s, TraceEntry.callback s COutcome.panicked,
              TraceEntry.logPanic], true)
        | ManagerEvent.timer COutcome.ok =>
            let r := manageLoop name finalStop rest (nextState s false) (isStop s)
            (TraceEntry.update name s :: TraceEntry.callback s COutcome.ok :: r.1, r.2)
        | ManagerEvent.timer COutcome.err =>
            let r := manageLoop name finalStop rest (nextState s true) (isStop s)
            (TraceEntry.update name s :: TraceEntry.callback s COutcome.err ::
              TraceEntry.logErr :: r.1, r.2)

/-- Embeds `RunContinuousManager.Manage`: the run starts in `StateInit` with
`hasStopped` false. The manager struct only carries timer durations, which
the event list abstracts; `ds` contributes only its name (the code reads
`ds.Name` and `ds.Runner`, never its options). -/
def RunContinuousManager.Manage (_m : RunContinuousManager) (ds : DaemonService)
    (events : List ManagerEvent) (finalStop : COutcome) : List TraceEntry × Bool :=
  manageLoop ds.Name finalStop events State.init false

/-- The sequence of states published through `updateState` in a trace. -/
def updatesOf (t : List TraceEntry) : List State :=
  t.filterMap fun e =>
    match e with
    | TraceEntry.update _ s => some s
    | _ => none

/-- The sequence of runner callback invocations in a trace. -/
def callbacksOf (t : List TraceEntry) : List (State × COutcome) :=
  t.filterMap fun e =>
    match e with
    | TraceEntry.callback s o => some (s, o)
    | _ => none

/-- Recomputes the `hasStopped` flag from a trace: it is set exactly when
the most recent runner callback was a Stop. -/
def stoppedFlag (b : Bool) : List TraceEntry → Bool
  | [] => b
  | TraceEntry.callback s _ :: rest => stoppedFlag (isStop s) rest
  | _ :: rest => stoppedFlag b rest

/-- Modelled from the spec: the transition table of the RunContinuousManager
state machine. From Init, no error goes to Idle and an error to Stop
(skipping Idle and Run); from Idle, no error goes to Run and an error to
Stop (skipping Run); from Run any outcome goes to Stop; from Stop any
outcome goes to Init. The Exit row is added only to totalise the function;
the table never reaches it. -/
def specTableNext : State → Bool → State
  | State.init, false => State.idle
  | State.init, true => State.stop
  | State.idle, false => State.run
  | State.idle, true => State.stop
  | State.run, _ => State.stop
  | State.stop, _ => State.init
  | State.exit, _ => State.exit

/-- Whether an outcome counts as an error in the spec table. -/
def erroredOutcome : COutcome → Bool
  | COutcome.err => true
  | _ => false

/-- Modelled from the spec: the state sequence the transition table predicts
from state `s` under the given events. Each state entered is listed; on
context cancellation the next and final state is Exit from any state. -/
def specSeq : State → List ManagerEvent → List State
  | s, [] => [s]
  | s, ManagerEvent.cancelled :: _ => [s, State.exit]
  | s, ManagerEvent.timer o :: rest => s :: specSeq (specTableNext s (erroredOutcome o)) rest

/-- Embeds the `BufferPolicy` values referenced through `intracom.DropOldest`
and the SubscriberConfig description of the spec. -/
inductive BufferPolicy where
  | DropOldest
  | DropNewest
  | Block
deriving DecidableEq

/-- Modelled from the spec: `SubscriberConfig` is `{ ConsumerGroup, ErrIfExists,
BufferSize, BufferPolicy }` (its struct declaration and `newSubscriber` are
not among the given sources; the fields are those the callers set). Only the
first two influence `Subscribe`. -/
structure SubscriberConfig where
  ConsumerGroup : String
  ErrIfExists : Bool
  BufferSize : Nat
  BufferPolicy : BufferPolicy
deriving DecidableEq

/-- Failure values of the topic operations of intracom/topic.go, named after
the spec taxonomy. Each constructor stands for the error string built with
errors.New at the corresponding return: `TopicClosed` for the two
"cannot subscribe/unsubscribe, topic already closed" strings, `GroupExists`
and `GroupUnknown` for the consumer-group messages carrying the group name,
`AlreadyClosed` for "topic already closed" in Close. -/
inductive TopicError where
  | TopicClosed
  | GroupExists (group : String)
  | GroupUnknown (group : String)
  | AlreadyClosed
deriving DecidableEq

/-- Embeds the `topic[T]` struct of intracom/topic.go. The subscriber map is
an association list from consumer group to its delivery channel, channels
being opaque handles allocated from `nextCh` (`newSubscriber` makes a fresh
channel per new group). -/
structure topic where
  closed : Bool
  subscribers : List (String × Nat)
  nextCh : Nat
deriving DecidableEq

/-- Embeds `topic.Subscribe`: fails when the topic is closed; when the
consumer group exists, fails if ErrIfExists and otherwise returns the
existing channel unchanged; otherwise registers the group with a fresh
channel. -/
def topic.Subscribe (t : topic) (conf : SubscriberConfig) : Except TopicError (Nat × topic) :=
  if t.closed then Except.error TopicError.TopicClosed
  else
    match List.lookup conf.ConsumerGroup t.subscribers with
    | some ch =>
        if conf.ErrIfExists then Except.error (TopicError.GroupExists conf.ConsumerGroup)
        else Except.ok (ch, t)
    | none =>
        Except.ok (t.nextCh,
          { t with subscribers := t.subscribers ++ [(conf.ConsumerGroup, t.nextCh)],
                   nextCh := t.nextCh + 1 })

/-- Embeds `topic.Unsubscribe`: fails when the topic is closed or the group
is unknown; otherwise closes the channel of the group and deletes it from
the map. -/
def topic.Unsubscribe (t : topic) (consumer : String) : Except TopicError topic :=
  if t.closed then Except.error TopicError.TopicClosed
  else
    match List.lookup consumer t.subscribers with
    | none => Except.error (TopicError.GroupUnknown consumer)
    | some _ =>
        Except.ok { t with subscribers := t.subscribers.filter fun p => !(p.1 == consumer) }

/-- Embeds `topic.Close`: the atomic `closed.Swap(true)` fails when already
closed; otherwise every subscriber channel is closed and the map emptied. -/
def topic.Close (t : topic) : Except TopicError topic :=
  if t.closed then Except.error TopicError.AlreadyClosed
  else Except.ok { t with closed := true, subscribers := [] }

/-- Embeds `log.Field` (a string key and value pair). -/
structure Field where
  Key : String
  Value : String
deriving DecidableEq

/-- Log levels of the log package, by their integer values. -/
abbrev Level := Int

/-- Embeds `log.LevelError` (value 3). -/
def LevelError : Level := (3 : Int)

/-- Embeds the `DaemonLog` record `{ Name, Level, Message, Fields }`. -/
structure DaemonLog where
  Name : String
  Level : Level
  Message : String
  Fields : List Field
deriving DecidableEq

/-- Embeds the `serviceContext` struct of the newer generation: a
cancellation scope, a name, the accumulated log fields, the daemon log
channel and the shared states topic. Scope, channel and topic are opaque
handles. -/
structure serviceContext where
  ctx : Nat
  name : String
  fields : List Field
  logC : Nat
  icStates : Nat
deriving DecidableEq

/-- Embeds `serviceContext.WithFields`: the new fields are prepended to the
existing list (`append(fields, sc.fields...)`); every other component is
shared with the receiver. -/
def serviceContext.WithFields (sc : serviceContext) (fields : List Field) : serviceContext :=
  { ctx := sc.ctx, name := sc.name, fields := fields ++ sc.fields,
    logC := sc.logC, icStates := sc.icStates }

/-- Embeds `newServiceContextWithCancel` of the newer generation: a fresh
cancellable child of the parent scope; the initial field slice holds
`("service", name)` when the name is non-empty, and the stored fields are
that slice appended to itself (`append(fields, fields...)`). -/
def newServiceContextWithCancel (parent : Nat) (name : String) (logC : Nat)
    (icStates : Nat) : serviceContext :=
  let fields : List Field := if name ≠ "" then [{ Key := "service", Value := name }] else []
  { ctx := parent + 1, name := name, fields := fields ++ fields,
    logC := logC, icStates := icStates }

/-- Embeds the record built by `serviceContext.Log`: the emitted DaemonLog
carries the call fields followed by the accumulated context fields
(`append(fields, sc.fields...)`). -/
def serviceContext.logRecord (sc : serviceContext) (level : Level) (message : String)
    (fields : List Field) : DaemonLog :=
  { Name := sc.name, Level := level, Message := message, Fields := fields ++ sc.fields }

/-- Embeds the `ServiceAction` values used by the watch methods. Modelled
from the spec: a sum type over Entering and Exiting. -/
inductive ServiceAction where
  | Entering
  | Exiting
deriving DecidableEq

/-- Embeds the `ServiceStates` mapping from service name to state, as the
association list underlying the Go map snapshot (keys unique). -/
abbrev ServiceStates := List (String × State)

/-- Embeds the filter mode constants `Include`, `Exclude`, `None` of
`ServiceFilter`. Modelled from the spec: a sum type over the three. -/
inductive FilterMode where
  | Include
  | Exclude
  | None
deriving DecidableEq

/-- Embeds `ServiceFilter` `{ Mode, Names }` with the name set as a list of
distinct names. -/
structure ServiceFilter where
  Mode : FilterMode
  Names : List String

/-- Go map assignment `m[k] = v` on the association-list representation:
replaces the value when the key is present, appends otherwise. -/
def mapInsert (m : ServiceStates) (k : String) (v : State) : ServiceStates :=
  match List.lookup k m with
  | some _ => m.map fun p => if p.1 = k then (k, v) else p
  | none => m ++ [(k, v)]

/-- Embeds the body of the receive case of `serviceContext.WatchAllServices`
for one published snapshot: each requested name whose entry satisfies the
action test (Entering keeps entries equal to the target, Exiting keeps
present entries different from the target) is inserted into the collected
map; the map is emitted only when its size equals the length of the
requested name list. -/
def watchAllServicesOnSnapshot (action : ServiceAction) (target : State)
    (services : List String) (states : ServiceStates) : Option ServiceStates :=
  let interested := services.foldl
    (fun acc name =>
      match List.lookup name states with
      | some val =>
          match action with
          | ServiceAction.Entering => if val = target then mapInsert acc name val else acc
          | ServiceAction.Exiting => if val ≠ target then mapInsert acc name val else acc
      | none => acc)
    ([] : ServiceStates)
  if interested.length = services.length then some interested else none

/-- Embeds the body of the receive case of `serviceContext.WatchAllStates`
for one published snapshot: with an empty name set or mode None the snapshot
is forwarded unchanged; mode Include keeps the entries named by the filter,
mode Exclude keeps the others. -/
def watchAllStatesOnSnapshot (filter : ServiceFilter) (states : ServiceStates) : ServiceStates :=
  if filter.Names.length = 0 ∨ filter.Mode = FilterMode.None then states
  else
    states.foldl
      (fun acc p =>
        match filter.Mode with
        | FilterMode.Include => if filter.Names.contains p.1 then mapInsert acc p.1 p.2 else acc
        | FilterMode.Exclude => if filter.Names.contains p.1 then acc else mapInsert acc p.1 p.2
        | FilterMode.None => acc)
      ([] : ServiceStates)

/-- Checks that inside the loop every runner callback is invoked directly
after the updateState call reporting the state it belongs to. -/
def wellReported : List TraceEntry → Bool
  | [] => true
  | TraceEntry.update _ s :: TraceEntry.callback s2 _ :: rest =>
      decide (s = s2) && wellReported rest
  | TraceEntry.callback _ _ :: _ => false
  | _ :: rest => wellReported rest

@[simp] lemma updatesOf_nil : updatesOf [] = [] := rfl

@[simp] lemma updatesOf_cons_update (n : String) (s : State) (t : List TraceEntry) :
    updatesOf (TraceEntry.update n s :: t) = s :: updatesOf t := rfl

@[simp] lemma updatesOf_cons_callback (s : State) (o : COutcome) (t : List TraceEntry) :
    updatesOf (TraceEntry.callback s o :: t) = updatesOf t := rfl

@[simp] lemma updatesOf_cons_logErr (t : List TraceEntry) :
    updatesOf (TraceEntry.logErr :: t) = updatesOf t := rfl

@[simp] lemma updatesOf_cons_logPanic (t : List TraceEntry) :
    updatesOf (TraceEntry.logPanic :: t) = updatesOf t := rfl

@[simp] lemma updatesOf_append (t u : List TraceEntry) :
    updatesOf (t ++ u) = updatesOf t ++ updatesOf u := by
  simp [updatesOf]

@[simp] lemma callbacksOf_nil : callbacksOf [] = [] := rfl

@[simp] lemma callbacksOf_cons_update (n : String) (s : State) (t : List TraceEntry) :
    callbacksOf (TraceEntry.update n s :: t) = callbacksOf t := rfl

@[simp] lemma callbacksOf_cons_callback (s : State) (o : COutcome) (t : List TraceEntry) :
    callbacksOf (TraceEntry.callback s o :: t) = (s, o) :: callbacksOf t := rfl

@[simp] lemma callbacksOf_cons_logErr (t : List TraceEntry) :
    callbacksOf (TraceEntry.logErr :: t) = callbacksOf t := rfl

@[simp] lemma callbacksOf_cons_logPanic (t : List TraceEntry) :
    callbacksOf (TraceEntry.logPanic :: t) = callbacksOf t := rfl

@[simp] lemma stoppedFlag_nil (b : Bool) : stoppedFlag b [] = b := rfl

@[simp] lemma stoppedFlag_cons_update (b : Bool) (n : String) (s : State) (t : List TraceEntry) :
    stoppedFlag b (TraceEntry.update n s :: t) = stoppedFlag b t := rfl

@[simp] lemma stoppedFlag_cons_callback (b : Bool) (s : State) (o : COutcome)
    (t : List TraceEntry) :
    stoppedFlag b (TraceEntry.callback s o :: t) = stoppedFlag (isStop s) t := rfl

@[simp] lemma stoppedFlag_cons_logErr (b : Bool) (t : List TraceEntry) :
    stoppedFlag b (TraceEntry.logErr :: t) = stoppedFlag b t := rfl

@[simp] lemma stoppedFlag_cons_logPanic (b : Bool) (t : List TraceEntry) :
    stoppedFlag b (TraceEntry.logPanic :: t) = stoppedFlag b t := rfl

@[simp] lemma wellReported_nil : wellReported [] = true := rfl

@[simp] lemma wellReported_single_update (n : String) (s : State) :
    wellReported [TraceEntry.update n s] = true := rfl

@[simp] lemma wellReported_update_callback (n : String) (s s2 : State) (o : COutcome)
    (t : List TraceEntry) :
    wellReported (TraceEntry.update n s :: TraceEntry.callback s2 o :: t)
      = (decide (s = s2) && wellReported t) := rfl

@[simp] lemma wellReported_logErr (t : List TraceEntry) :
    wellReported (TraceEntry.logErr :: t) = wellReported t := rfl

lemma nextState_eq_specTableNext (s : State) (b : Bool) :
    nextState s b = specTableNext s b := by
  cases s <;> cases b <;> rfl

lemma nextState_ne_exit (s : State) (b : Bool) (h : s ≠ State.exit) :
    nextState s b ≠ State.exit := by
  cases s <;> cases b <;> simp_all [nextState]

lemma updatesOf_finishTrace (name : String) (b : Bool) (fs : COutcome)
    (hfs : fs ≠ COutcome.panicked) :
    updatesOf (finishTrace name b fs) = [State.exit] := by
  cases b <;> cases fs <;> simp_all [finishTrace, updatesOf]

lemma updatesOf_manageLoop (name : String) (fs : COutcome) :
    ∀ (events : List ManagerEvent) (s : State) (b : Bool),
    (∀ e ∈ events, e ≠ ManagerEvent.timer COutcome.panicked) →
    fs ≠ COutcome.panicked →
    s ≠ State.exit →
    updatesOf (manageLoop name fs events s b).1 = specSeq s events := by
  intro events
  induction events with
  | nil =>
      intro s b _ _ hs
      simp [manageLoop, hs, specSeq]
  | cons e rest ih =>
      intro s b hev hfs hs
      have hrest : ∀ x ∈ rest, x ≠ ManagerEvent.timer COutcome.panicked := by
        intro x hx
        exact hev x (List.mem_cons_of_mem _ hx)
      cases e with
      | cancelled =>
          simp [manageLoop, hs, specSeq, updatesOf_finishTrace name b fs hfs]
      | timer o =>
          cases o with
          | panicked => exact absurd rfl (hev _ (List.mem_cons_self _ _))
          | ok =>
              have h := ih (nextState s false) (isStop s) hrest hfs (nextState_ne_exit s false hs)
              rw [nextState_eq_specTableNext] at h
              simp [manageLoop, hs, specSeq, erroredOutcome, nextState_eq_specTableNext, h]
          | err =>
              have h := ih (nextState s true) (isStop s) hrest hfs (nextState_ne_exit s true hs)
              rw [nextState_eq_specTableNext] at h
              simp [manageLoop, hs, specSeq, erroredOutcome, nextState_eq_specTableNext, h]

lemma manageLoop_shape (name : String) (fs : COutcome) :
    ∀ (events : List ManagerEvent) (s : State) (b : Bool),
    (∀ e ∈ events, e ≠ ManagerEvent.timer COutcome.panicked) →
    s ≠ State.exit →
    (manageLoop name fs events s b).2 = true →
    ∃ body, (manageLoop name fs events s b).1
        = body ++ finishTrace name (stoppedFlag b body) fs
      ∧ State.exit ∉ updatesOf body
      ∧ wellReported body = true := by
  intro events
  induction events with
  | nil =>
      intro s b _ hs hterm
      simp [manageLoop, hs] at hterm
  | cons e rest ih =>
      intro s b hev hs hterm
      have hrest : ∀ x ∈ rest, x ≠ ManagerEvent.timer COutcome.panicked := by
        intro x hx
        exact hev x (List.mem_cons_of_mem _ hx)
      cases e with
      | cancelled =>
          refine ⟨[TraceEntry.update name s], ?_, ?_, ?_⟩
          · simp [manageLoop, hs]
          · simp
            intro h
            exact hs h.symm
          · simp
      | timer o =>
          cases o with
          | panicked => exact absurd rfl (hev _ (List.mem_cons_self _ _))
          | ok =>
              have hterm2 : (manageLoop name fs rest (nextState s false) (isStop s)).2 = true := by
                simpa [manageLoop, hs] using hterm
              obtain ⟨body, h1, h2, h3⟩ :=
                ih (nextState s false) (isStop s) hrest (nextState_ne_exit s false hs) hterm2
              refine ⟨TraceEntry.update name s :: TraceEntry.callback s COutcome.ok :: body,
                ?_, ?_, ?_⟩
              · simp [manageLoop, hs, h1]
              · simp [h2]
                intro h
                exact hs h.symm
              · simp [h3]
          | err =>
              have hterm2 : (manageLoop name fs rest (nextState s true) (isStop s)).2 = true := by
                simpa [manageLoop, hs] using hterm
              obtain ⟨body, h1, h2, h3⟩ :=
                ih (nextState s true) (isStop s) hrest (nextState_ne_exit s true hs) hterm2
              refine ⟨TraceEntry.update name s :: TraceEntry.callback s COutcome.err ::
                TraceEntry.logErr :: body, ?_, ?_, ?_⟩
              · simp [manageLoop, hs, h1]
              · simp [h2]
                intro h
                exact hs h.symm
              · simp [h3]

lemma callbacksOf_finishTrace (name : String) (b : Bool) (fs : COutcome)
    (hfs : fs ≠ COutcome.panicked) :
    callbacksOf (finishTrace name b fs) = (if b then [] else [(State.stop, fs)]) := by
  cases b <;> cases fs <;> simp_all [finishTrace]

lemma getLast_finishTrace (name : String) (b : Bool) (fs : COutcome)
    (hfs : fs ≠ COutcome.panicked) :
    (finishTrace name b fs).getLast? = some (TraceEntry.update name State.exit) := by
  cases b <;> cases fs <;> simp_all [finishTrace]

/-- C1: in every run of RunContinuousManager.Manage the published state
sequence follows the transition table of the spec: from Init to Idle on
success and to Stop on error, from Idle to Run on success and to Stop on
error, from Run always to Stop, from Stop always back to Init, and on
context cancellation to Exit from any state. Panics are outside the table
(claim C3 covers them), so the events and the outcome of the final cleanup
Stop are assumed panic-free. -/
theorem manage_follows_transition_table
    (m : RunContinuousManager) (ds : DaemonService)
    (events : List ManagerEvent) (fs : COutcome)
    (hev : ∀ e ∈ events, e ≠ ManagerEvent.timer COutcome.panicked)
    (hfs : fs ≠ COutcome.panicked) :
    updatesOf (m.Manage ds events fs).1 = specSeq State.init events := by
  exact updatesOf_manageLoop ds.Name fs events State.init false hev hfs (by simp)

/-- Witness for C1 at a concrete run: Init errors once, then a clean cycle
runs, then the context is cancelled; the published sequence is the one the
table predicts. -/
theorem manage_follows_transition_table_witness :
    updatesOf ((NewDefaultManager.Manage ⟨"s1", ⟨RunUntilStoppedPolicy⟩⟩
        [ManagerEvent.timer COutcome.err, ManagerEvent.timer COutcome.ok,
         ManagerEvent.timer COutcome.ok, ManagerEvent.timer COutcome.ok,
         ManagerEvent.timer COutcome.ok, ManagerEvent.cancelled] COutcome.ok).1)
      = [State.init, State.stop, State.init, State.idle, State.run, State.stop, State.exit] := by
  have h := manage_follows_transition_table NewDefaultManager ⟨"s1", ⟨RunUntilStoppedPolicy⟩⟩
    [ManagerEvent.timer COutcome.err, ManagerEvent.timer COutcome.ok,
     ManagerEvent.timer COutcome.ok, ManagerEvent.timer COutcome.ok,
     ManagerEvent.timer COutcome.ok, ManagerEvent.cancelled] COutcome.ok
    (by decide) (by decide)
  rw [h]
  decide

/-- C2 counterexample: a terminating run whose Init callback panics never
calls updateState with StateExit at all, refuting the unconditional claim
that every terminating run publishes the terminal Exit exactly once. -/
theorem manage_exit_missing_on_panic :
    ((NewDefaultManager.Manage ⟨"s1", ⟨RunUntilStoppedPolicy⟩⟩
        [ManagerEvent.timer COutcome.panicked] COutcome.ok).2 = true)
    ∧ TraceEntry.update "s1" State.exit ∉
        (NewDefaultManager.Manage ⟨"s1", ⟨RunUntilStoppedPolicy⟩⟩
          [ManagerEvent.timer COutcome.panicked] COutcome.ok).1
    ∧ (∀ o : COutcome, TraceEntry.callback State.stop o ∉
        (NewDefaultManager.Manage ⟨"s1", ⟨RunUntilStoppedPolicy⟩⟩
          [ManagerEvent.timer COutcome.panicked] COutcome.ok).1) := by
  decide

/-- C2 (amended with panic-freedom): every terminating panic-free run of
Manage splits into a loop body and a final tail in which StateExit is
published exactly once, as the very last trace entry, and in which the
runner Stop is invoked exactly once unless the most recent loop callback
already was a Stop (the `hasStopped` flag, recomputed here by
`stoppedFlag`); no StateExit update occurs in the body. -/
theorem manage_stop_and_exit_on_termination
    (m : RunContinuousManager) (ds : DaemonService)
    (events : List ManagerEvent) (fs : COutcome)
    (hev : ∀ e ∈ events, e ≠ ManagerEvent.timer COutcome.panicked)
    (hfs : fs ≠ COutcome.panicked)
    (hterm : (m.Manage ds events fs).2 = true) :
    ∃ body tail, (m.Manage ds events fs).1 = body ++ tail
      ∧ updatesOf tail = [State.exit]
      ∧ State.exit ∉ updatesOf body
      ∧ tail.getLast? = some (TraceEntry.update ds.Name State.exit)
      ∧ callbacksOf tail = (if stoppedFlag false body then [] else [(State.stop, fs)]) := by
  obtain ⟨body, h1, h2, _h3⟩ :=
    manageLoop_shape ds.Name fs events State.init false hev (by simp) hterm
  exact ⟨body, finishTrace ds.Name (stoppedFlag false body) fs, h1,
    updatesOf_finishTrace _ _ _ hfs, h2, getLast_finishTrace _ _ _ hfs,
    callbacksOf_finishTrace _ _ _ hfs⟩

/-- Witness for C2 at a concrete run: one clean cycle, then cancellation
right after the Stop callback. -/
theorem manage_stop_and_exit_on_termination_witness :
    ∃ body tail,
      (NewDefaultManager.Manage ⟨"s1", ⟨RunUntilStoppedPolicy⟩⟩
        [ManagerEvent.timer COutcome.ok, ManagerEvent.timer COutcome.ok,
         ManagerEvent.timer COutcome.ok, ManagerEvent.timer COutcome.ok,
         ManagerEvent.cancelled] COutcome.ok).1 = body ++ tail
      ∧ updatesOf tail = [State.exit]
      ∧ State.exit ∉ updatesOf body
      ∧ tail.getLast? = some (TraceEntry.update "s1" State.exit)
      ∧ callbacksOf tail = (if stoppedFlag false body then [] else [(State.stop, COutcome.ok)]) :=
  manage_stop_and_exit_on_termination NewDefaultManager ⟨"s1", ⟨RunUntilStoppedPolicy⟩⟩
    [ManagerEvent.timer COutcome.ok, ManagerEvent.timer COutcome.ok,
     ManagerEvent.timer COutcome.ok, ManagerEvent.timer COutcome.ok,
     ManagerEvent.cancelled] COutcome.ok (by decide) (by decide) (by decide)

lemma manageLoop_panic_shape (name : String) (fs : COutcome) :
    ∀ (events : List ManagerEvent) (s : State) (b : Bool),
    s ≠ State.exit →
    (∃ s2, TraceEntry.callback s2 COutcome.panicked ∈ (manageLoop name fs events s b).1) →
    (manageLoop name fs events s b).2 = true
    ∧ ∃ body s2, (manageLoop name fs events s b).1
        = body ++ [TraceEntry.callback s2 COutcome.panicked, TraceEntry.logPanic]
      ∧ State.exit ∉ updatesOf body
      ∧ ∀ s3, TraceEntry.callback s3 COutcome.panicked ∉ body := by
  intro events
  induction events with
  | nil =>
      intro s b hs hp
      obtain ⟨s2, hm⟩ := hp
      simp [manageLoop, hs] at hm
  | cons e rest ih =>
      intro s b hs hp
      obtain ⟨s2, hm⟩ := hp
      cases e with
      | cancelled =>
          have htr : manageLoop name fs (ManagerEvent.cancelled :: rest) s b
              = (TraceEntry.update name s :: finishTrace name b fs, true) := by
            simp [manageLoop, hs]
          rw [htr] at hm ⊢
          refine ⟨rfl, ?_⟩
          cases b with
          | false =>
              cases fs with
              | ok => exfalso; simp [finishTrace] at hm
              | err => exfalso; simp [finishTrace] at hm
              | panicked =>
                  refine ⟨[TraceEntry.update name s], State.stop, ?_, ?_, ?_⟩
                  · simp [finishTrace]
                  · simp
                    intro h
                    exact hs h.symm
                  · intro s3
                    simp
          | true => exfalso; simp [finishTrace] at hm
      | timer o =>
          cases o with
          | panicked =>
              have htr : manageLoop name fs (ManagerEvent.timer COutcome.panicked :: rest) s b
                  = ([TraceEntry.update name s, TraceEntry.callback s COutcome.panicked,
                      TraceEntry.logPanic], true) := by
                simp [manageLoop, hs]
              rw [htr]
              refine ⟨rfl, [TraceEntry.update name s], s, rfl, ?_, ?_⟩
              · simp
                intro h
                exact hs h.symm
              · intro s3
                simp
          | ok =>
              have htr : manageLoop name fs (ManagerEvent.timer COutcome.ok :: rest) s b
                  = (TraceEntry.update name s :: TraceEntry.callback s COutcome.ok ::
                      (manageLoop name fs rest (nextState s false) (isStop s)).1,
                     (manageLoop name fs rest (nextState s false) (isStop s)).2) := by
                simp [manageLoop, hs]
              rw [htr] at hm ⊢
              simp only [List.mem_cons] at hm
              rcases hm with h | h | h
              · exact absurd h (by simp)
              · exact absurd h (by simp)
              · obtain ⟨hdone, body, s3, hb1, hb2, hb3⟩ :=
                  ih (nextState s false) (isStop s) (nextState_ne_exit s false hs) ⟨s2, h⟩
                refine ⟨hdone, TraceEntry.update name s :: TraceEntry.callback s COutcome.ok ::
                  body, s3, ?_, ?_, ?_⟩
                · simp [hb1]
                · simp [hb2]
                  intro h2
                  exact hs h2.symm
                · intro s4
                  simp [hb3 s4]
          | err =>
              have htr : manageLoop name fs (ManagerEvent.timer COutcome.err :: rest) s b
                  = (TraceEntry.update name s :: TraceEntry.callback s COutcome.err ::
                      TraceEntry.logErr ::
                      (manageLoop name fs rest (nextState s true) (isStop s)).1,
                     (manageLoop name fs rest (nextState s true) (isStop s)).2) := by
                simp [manageLoop, hs]
              rw [htr] at hm ⊢
              simp only [List.mem_cons] at hm
              rcases hm with h | h | h | h
              · exact absurd h (by simp)
              · exact absurd h (by simp)
              · exact absurd h (by simp)
              · obtain ⟨hdone, body, s3, hb1, hb2, hb3⟩ :=
                  ih (nextState s true) (isStop s) (nextState_ne_exit s true hs) ⟨s2, h⟩
                refine ⟨hdone, TraceEntry.update name s :: TraceEntry.callback s COutcome.err ::
                  TraceEntry.logErr :: body, s3, ?_, ?_, ?_⟩
                · simp [hb1]
                · simp [hb2]
                  intro h2
                  exact hs h2.symm
                · intro s4
                  simp [hb3 s4]

/-- C3 counterexample: on a run whose Init callback panics the manager logs
the panic and returns, but it does not invoke Runner.Stop and does not
report StateExit, refuting those two parts of the claim. -/
theorem manage_panic_skips_stop_and_exit :
    ((NewDefaultManager.Manage ⟨"s1", ⟨RunUntilStoppedPolicy⟩⟩
        [ManagerEvent.timer COutcome.panicked] COutcome.ok).2 = true)
    ∧ TraceEntry.logPanic ∈
        (NewDefaultManager.Manage ⟨"s1", ⟨RunUntilStoppedPolicy⟩⟩
          [ManagerEvent.timer COutcome.panicked] COutcome.ok).1
    ∧ (∀ o : COutcome, TraceEntry.callback State.stop o ∉
        (NewDefaultManager.Manage ⟨"s1", ⟨RunUntilStoppedPolicy⟩⟩
          [ManagerEvent.timer COutcome.panicked] COutcome.ok).1)
    ∧ (∀ n : String, n = "s1" → TraceEntry.update n State.exit ∉
        (NewDefaultManager.Manage ⟨"s1", ⟨RunUntilStoppedPolicy⟩⟩
          [ManagerEvent.timer COutcome.panicked] COutcome.ok).1) := by
  refine ⟨by decide, by decide, by decide, ?_⟩
  intro n hn
  subst hn
  decide

/-- C3 (amended): when a runner callback panics, Manage terminates normally
(the deferred recover captures the panic), the very last trace action is the
error log of the recover, nothing runs after the panicking callback, and in
particular no StateExit is ever published in that run. -/
theorem manage_panic_captured_and_logged
    (m : RunContinuousManager) (ds : DaemonService)
    (events : List ManagerEvent) (fs : COutcome)
    (hp : ∃ s, TraceEntry.callback s COutcome.panicked ∈ (m.Manage ds events fs).1) :
    (m.Manage ds events fs).2 = true
    ∧ State.exit ∉ updatesOf (m.Manage ds events fs).1
    ∧ ∃ body s2, (m.Manage ds events fs).1
        = body ++ [TraceEntry.callback s2 COutcome.panicked, TraceEntry.logPanic]
      ∧ ∀ s3, TraceEntry.callback s3 COutcome.panicked ∉ body := by
  obtain ⟨hdone, body, s2, h1, h2, h3⟩ :=
    manageLoop_panic_shape ds.Name fs events State.init false (by simp) hp
  refine ⟨hdone, ?_, body, s2, h1, h3⟩
  have : updatesOf (m.Manage ds events fs).1 = updatesOf body := by
    show updatesOf (manageLoop ds.Name fs events State.init false).1 = updatesOf body
    rw [h1]
    simp
  rw [this]
  exact h2

/-- Witness for C3 at a concrete run: a clean Init, then Idle panics. -/
theorem manage_panic_captured_and_logged_witness :
    ((NewDefaultManager.Manage ⟨"s1", ⟨RunUntilStoppedPolicy⟩⟩
        [ManagerEvent.timer COutcome.ok, ManagerEvent.timer COutcome.panicked]
        COutcome.ok).2 = true)
    ∧ State.exit ∉ updatesOf (NewDefaultManager.Manage ⟨"s1", ⟨RunUntilStoppedPolicy⟩⟩
        [ManagerEvent.timer COutcome.ok, ManagerEvent.timer COutcome.panicked]
        COutcome.ok).1
    ∧ ∃ body s2, (NewDefaultManager.Manage ⟨"s1", ⟨RunUntilStoppedPolicy⟩⟩
        [ManagerEvent.timer COutcome.ok, ManagerEvent.timer COutcome.panicked]
        COutcome.ok).1
        = body ++ [TraceEntry.callback s2 COutcome.panicked, TraceEntry.logPanic]
      ∧ ∀ s3, TraceEntry.callback s3 COutcome.panicked ∉ body :=
  manage_panic_captured_and_logged NewDefaultManager ⟨"s1", ⟨RunUntilStoppedPolicy⟩⟩
    [ManagerEvent.timer COutcome.ok, ManagerEvent.timer COutcome.panicked]
    COutcome.ok ⟨State.idle, by decide⟩

lemma manageLoop_no_cancel_no_exit (name : String) (fs : COutcome) :
    ∀ (events : List ManagerEvent) (s : State) (b : Bool),
    (∀ e ∈ events, ∃ o, e = ManagerEvent.timer o ∧ o ≠ COutcome.panicked) →
    s ≠ State.exit →
    (manageLoop name fs events s b).2 = false := by
  intro events
  induction events with
  | nil =>
      intro s b _ hs
      simp [manageLoop, hs]
  | cons e rest ih =>
      intro s b hev hs
      have hrest : ∀ x ∈ rest, ∃ o, x = ManagerEvent.timer o ∧ o ≠ COutcome.panicked := by
        intro x hx
        exact hev x (List.mem_cons_of_mem _ hx)
      obtain ⟨o, heq, hnp⟩ := hev e (List.mem_cons_self _ _)
      subst heq
      cases o with
      | panicked => exact absurd rfl hnp
      | ok =>
          have h := ih (nextState s false) (isStop s) hrest (nextState_ne_exit s false hs)
          simp [manageLoop, hs, h]
      | err =>
          have h := ih (nextState s true) (isStop s) hrest (nextState_ne_exit s true hs)
          simp [manageLoop, hs, h]

/-- C4 counterexample: under the RunOnceIfSuccess policy and the shipped
default manager, a run whose Run callback succeeds and whose following Stop
callback succeeds publishes Init and Idle again (it re-loops) and never
forces StateExit, refuting the claimed policy behavior. -/
theorem runOnceIfSuccess_ignored :
    updatesOf (NewDefaultManager.Manage ⟨"s1", ⟨RunOnceIfSuccessPolicy⟩⟩
        [ManagerEvent.timer COutcome.ok, ManagerEvent.timer COutcome.ok,
         ManagerEvent.timer COutcome.ok, ManagerEvent.timer COutcome.ok,
         ManagerEvent.timer COutcome.ok] COutcome.ok).1
      = [State.init, State.idle, State.run, State.stop, State.init, State.idle]
    ∧ ((NewDefaultManager.Manage ⟨"s1", ⟨RunOnceIfSuccessPolicy⟩⟩
        [ManagerEvent.timer COutcome.ok, ManagerEvent.timer COutcome.ok,
         ManagerEvent.timer COutcome.ok, ManagerEvent.timer COutcome.ok,
         ManagerEvent.timer COutcome.ok] COutcome.ok).2 = false)
    ∧ State.exit ∉ updatesOf (NewDefaultManager.Manage ⟨"s1", ⟨RunOnceIfSuccessPolicy⟩⟩
        [ManagerEvent.timer COutcome.ok, ManagerEvent.timer COutcome.ok,
         ManagerEvent.timer COutcome.ok, ManagerEvent.timer COutcome.ok,
         ManagerEvent.timer COutcome.ok] COutcome.ok).1 := by
  decide

/-- C4 (amended): the shipped default manager ignores the run policy
entirely: runs are identical no matter which policy the service options
carry, after Stop the next state is always Init (re-loop), and no run made
of panic-free timer events alone ever terminates, so Exit is forced only by
context cancellation. -/
theorem manage_ignores_run_policy :
    (∀ (m : RunContinuousManager) (name : String) (p q : ServiceOpts)
        (events : List ManagerEvent) (fs : COutcome),
      m.Manage ⟨name, p⟩ events fs = m.Manage ⟨name, q⟩ events fs)
    ∧ (∀ b, nextState State.stop b = State.init)
    ∧ (∀ (m : RunContinuousManager) (ds : DaemonService)
        (events : List ManagerEvent) (fs : COutcome),
      (∀ e ∈ events, ∃ o, e = ManagerEvent.timer o ∧ o ≠ COutcome.panicked) →
      (m.Manage ds events fs).2 = false) := by
  refine ⟨fun m name p q events fs => rfl, fun b => rfl, ?_⟩
  intro m ds events fs hev
  exact manageLoop_no_cancel_no_exit ds.Name fs events State.init false hev (by simp)

/-- Witness for C4 at concrete inputs: the RunOnceIfSuccess run and the
RunUntilStopped run coincide, Stop re-loops to Init, and a run of five
successful timer events does not terminate. -/
theorem manage_ignores_run_policy_witness :
    NewDefaultManager.Manage ⟨"s1", ⟨RunOnceIfSuccessPolicy⟩⟩
        [ManagerEvent.timer COutcome.ok] COutcome.ok
      = NewDefaultManager.Manage ⟨"s1", ⟨RunUntilStoppedPolicy⟩⟩
        [ManagerEvent.timer COutcome.ok] COutcome.ok
    ∧ nextState State.stop false = State.init
    ∧ ((NewDefaultManager.Manage ⟨"s1", ⟨RunOnceIfSuccessPolicy⟩⟩
        [ManagerEvent.timer COutcome.ok, ManagerEvent.timer COutcome.ok,
         ManagerEvent.timer COutcome.ok, ManagerEvent.timer COutcome.ok,
         ManagerEvent.timer COutcome.ok] COutcome.ok).2 = false) :=
  ⟨manage_ignores_run_policy.1 NewDefaultManager "s1" ⟨RunOnceIfSuccessPolicy⟩
      ⟨RunUntilStoppedPolicy⟩ [ManagerEvent.timer COutcome.ok] COutcome.ok,
   manage_ignores_run_policy.2.1 false,
   manage_ignores_run_policy.2.2 NewDefaultManager ⟨"s1", ⟨RunOnceIfSuccessPolicy⟩⟩
      [ManagerEvent.timer COutcome.ok, ManagerEvent.timer COutcome.ok,
       ManagerEvent.timer COutcome.ok, ManagerEvent.timer COutcome.ok,
       ManagerEvent.timer COutcome.ok] COutcome.ok (by decide)⟩

/-- C5 counterexample: in a run cancelled while the state is Run, the
cleanup Stop callback is invoked although updateState was never called with
StateStop in the whole run, refuting the claim that each of the four runner
callbacks is invoked only after its state has been reported. -/
theorem final_stop_not_reported :
    TraceEntry.callback State.stop COutcome.ok ∈
      (NewDefaultManager.Manage ⟨"s1", ⟨RunUntilStoppedPolicy⟩⟩
        [ManagerEvent.timer COutcome.ok, ManagerEvent.timer COutcome.ok,
         ManagerEvent.cancelled] COutcome.ok).1
    ∧ TraceEntry.update "s1" State.stop ∉
      (NewDefaultManager.Manage ⟨"s1", ⟨RunUntilStoppedPolicy⟩⟩
        [ManagerEvent.timer COutcome.ok, ManagerEvent.timer COutcome.ok,
         ManagerEvent.cancelled] COutcome.ok).1
    ∧ State.stop ∉ updatesOf (NewDefaultManager.Manage ⟨"s1", ⟨RunUntilStoppedPolicy⟩⟩
        [ManagerEvent.timer COutcome.ok, ManagerEvent.timer COutcome.ok,
         ManagerEvent.cancelled] COutcome.ok).1 := by
  decide

/-- C5 (amended): in every terminating panic-free run, inside the loop each
runner callback directly follows the updateState call reporting its state
(checked by `wellReported` on the loop body), and the terminal Exit is
published exactly once, in the final tail of the trace; the cleanup Stop in
that tail is the one callback that may run unreported. -/
theorem updateState_precedes_loop_callbacks
    (m : RunContinuousManager) (ds : DaemonService)
    (events : List ManagerEvent) (fs : COutcome)
    (hev : ∀ e ∈ events, e ≠ ManagerEvent.timer COutcome.panicked)
    (hfs : fs ≠ COutcome.panicked)
    (hterm : (m.Manage ds events fs).2 = true) :
    ∃ body tail, (m.Manage ds events fs).1 = body ++ tail
      ∧ wellReported body = true
      ∧ updatesOf tail = [State.exit]
      ∧ State.exit ∉ updatesOf body := by
  obtain ⟨body, h1, h2, h3⟩ :=
    manageLoop_shape ds.Name fs events State.init false hev (by simp) hterm
  exact ⟨body, finishTrace ds.Name (stoppedFlag false body) fs, h1, h3,
    updatesOf_finishTrace _ _ _ hfs, h2⟩

/-- Witness for C5 at a concrete run: an Idle error cycle followed by
cancellation. -/
theorem updateState_precedes_loop_callbacks_witness :
    ∃ body tail,
      (NewDefaultManager.Manage ⟨"s1", ⟨RunUntilStoppedPolicy⟩⟩
        [ManagerEvent.timer COutcome.ok, ManagerEvent.timer COutcome.err,
         ManagerEvent.timer COutcome.ok, ManagerEvent.cancelled] COutcome.ok).1
        = body ++ tail
      ∧ wellReported body = true
      ∧ updatesOf tail = [State.exit]
      ∧ State.exit ∉ updatesOf body :=
  updateState_precedes_loop_callbacks NewDefaultManager ⟨"s1", ⟨RunUntilStoppedPolicy⟩⟩
    [ManagerEvent.timer COutcome.ok, ManagerEvent.timer COutcome.err,
     ManagerEvent.timer COutcome.ok, ManagerEvent.cancelled] COutcome.ok
    (by decide) (by decide) (by decide)

/-- Modelled from the spec: the watch predicate. Entering with target T
holds for a name when the snapshot maps it to T; Exiting holds when the
name is present in the snapshot with a state different from T; a missing
name never satisfies either action. -/
def satisfiesAction (action : ServiceAction) (target : State) (states : ServiceStates)
    (name : String) : Bool :=
  match action, List.lookup name states with
  | ServiceAction.Entering, some v => decide (v = target)
  | ServiceAction.Exiting, some v => decide (v ≠ target)
  | _, none => false

/-- The optional entry the loop of WatchAllServices inserts into the
collected map for one requested name. -/
def watchEntry (action : ServiceAction) (target : State) (states : ServiceStates)
    (name : String) : Option (String × State) :=
  match List.lookup name states with
  | some v =>
      match action with
      | ServiceAction.Entering => if v = target then some (name, v) else none
      | ServiceAction.Exiting => if v ≠ target then some (name, v) else none
  | none => none

lemma watchEntry_isSome_iff (action : ServiceAction) (target : State) (states : ServiceStates)
    (name : String) :
    (watchEntry action target states name).isSome = satisfiesAction action target states name := by
  cases hl : List.lookup name states with
  | none => cases action <;> simp [watchEntry, satisfiesAction, hl]
  | some v =>
      cases action <;> by_cases hv : v = target <;>
        simp [watchEntry, satisfiesAction, hl, hv]

lemma watchEntry_eq_some (action : ServiceAction) (target : State) (states : ServiceStates)
    (name : String) (p : String × State) (h : watchEntry action target states name = some p) :
    p.1 = name ∧ List.lookup name states = some p.2
      ∧ satisfiesAction action target states name = true := by
  cases hl : List.lookup name states with
  | none => simp [watchEntry, hl] at h
  | some v =>
      cases action <;> by_cases hv : v = target <;>
        simp [watchEntry, satisfiesAction, hl, hv] at h ⊢ <;>
        (cases h; simp)

lemma lookup_append_left_none {β : Type} (n : String) (l1 l2 : List (String × β))
    (h : List.lookup n l1 = none) :
    List.lookup n (l1 ++ l2) = List.lookup n l2 := by
  induction l1 with
  | nil => rfl
  | cons p t ih =>
      by_cases he : n == p.1
      · simp [List.lookup, he] at h
      · simp only [List.lookup, he, List.cons_append] at h ⊢
        exact ih h

lemma mapInsert_fresh (acc : ServiceStates) (k : String) (v : State)
    (h : List.lookup k acc = none) :
    mapInsert acc k v = acc ++ [(k, v)] := by
  simp [mapInsert, h]

/-- The accumulator update of one iteration of the WatchAllServices loop. -/
def watchStep (action : ServiceAction) (target : State) (states : ServiceStates)
    (acc : ServiceStates) (name : String) : ServiceStates :=
  match List.lookup name states with
  | some val =>
      match action with
      | ServiceAction.Entering => if val = target then mapInsert acc name val else acc
      | ServiceAction.Exiting => if val ≠ target then mapInsert acc name val else acc
  | none => acc

lemma watchAllServicesOnSnapshot_eq_foldl (action : ServiceAction) (target : State)
    (services : List String) (states : ServiceStates) :
    watchAllServicesOnSnapshot action target services states
      = (if (services.foldl (watchStep action target states) []).length = services.length
          then some (services.foldl (watchStep action target states) []) else none) := rfl

lemma watchStep_none (action : ServiceAction) (target : State) (states : ServiceStates)
    (acc : ServiceStates) (a : String) (he : watchEntry action target states a = none) :
    watchStep action target states acc a = acc := by
  cases hl : List.lookup a states with
  | none => simp [watchStep, hl]
  | some v =>
      cases action <;> by_cases hv : v = target <;>
        simp_all [watchStep, watchEntry]

lemma watchStep_some (action : ServiceAction) (target : State) (states : ServiceStates)
    (acc : ServiceStates) (a : String) (p : String × State)
    (he : watchEntry action target states a = some p)
    (hlacc : List.lookup a acc = none) :
    watchStep action target states acc a = acc ++ [p] := by
  cases hl : List.lookup a states with
  | none => simp [watchEntry, hl] at he
  | some v =>
      cases action with
      | Entering =>
          by_cases hv : v = target
          · have hp : p = (a, target) := by
              simp [watchEntry, hl, hv] at he
              exact he.symm
            subst hp
            simp [watchStep, hl, hv, mapInsert_fresh acc a target hlacc]
          · simp [watchEntry, hl, hv] at he
      | Exiting =>
          by_cases hv : v = target
          · simp [watchEntry, hl, hv] at he
          · have hp : p = (a, v) := by
              simp [watchEntry, hl, hv] at he
              exact he.symm
            subst hp
            simp [watchStep, hl, hv, mapInsert_fresh acc a v hlacc]

lemma watchAll_foldl (action : ServiceAction) (target : State) (states : ServiceStates) :
    ∀ (services : List String) (acc : ServiceStates),
    services.Nodup →
    (∀ n ∈ services, List.lookup n acc = none) →
    services.foldl (watchStep action target states) acc
    = acc ++ services.filterMap (watchEntry action target states) := by
  intro services
  induction services with
  | nil =>
      intro acc _ _
      simp
  | cons a t ih =>
      intro acc hnd hacc
      have hnda : a ∉ t := (List.nodup_cons.mp hnd).1
      have hndt : t.Nodup := (List.nodup_cons.mp hnd).2
      have hlacc : List.lookup a acc = none := hacc a (List.mem_cons_self _ _)
      cases he : watchEntry action target states a with
      | none =>
          have hrest : ∀ n ∈ t, List.lookup n acc = none := by
            intro n hn
            exact hacc n (List.mem_cons_of_mem _ hn)
          simp only [List.foldl_cons, watchStep_none action target states acc a he,
            List.filterMap_cons, he]
          exact ih acc hndt hrest
      | some p =>
          obtain ⟨hp1, _hp2, _⟩ := watchEntry_eq_some action target states a p he
          have hrest : ∀ n ∈ t, List.lookup n (acc ++ [p]) = none := by
            intro n hn
            rw [lookup_append_left_none n acc [p] (hacc n (List.mem_cons_of_mem _ hn))]
            have hne : n ≠ a := fun hEq => hnda (hEq ▸ hn)
            have hba : (n == a) = false := beq_eq_false_iff_ne.mpr hne
            simp [List.lookup, hp1, hba]
          simp only [List.foldl_cons, watchStep_some action target states acc a p he hlacc,
            List.filterMap_cons, he]
          rw [ih (acc ++ [p]) hndt hrest]
          simp

lemma length_filterMap_eq_length_iff (l : List String)
    (g : String → Option (String × State)) :
    ((l.filterMap g).length = l.length) ↔ ∀ a ∈ l, (g a).isSome := by
  induction l with
  | nil => simp
  | cons a t ih =>
      cases hg : g a with
      | none =>
          have hle := List.length_filterMap_le g t
          simp [hg, ih]
          intro h
          omega
      | some b => simp [hg, ih]

/-- C6 counterexample: with the duplicated name list given twice over one
name, every listed name satisfies the Entering predicate, yet the watch does
not emit: the collected map has one key while the loop compares its size
against the length of the name list. -/
theorem watchAllServices_duplicate_names :
    (∀ n ∈ ["a", "a"], satisfiesAction ServiceAction.Entering State.run
        [("a", State.run)] n = true)
    ∧ watchAllServicesOnSnapshot ServiceAction.Entering State.run ["a", "a"]
        [("a", State.run)] = none := by
  decide

/-- C6 (amended with distinct names): for a pairwise distinct name list the
watch emits exactly when every name satisfies the predicate (Entering: the
snapshot maps it to the target; Exiting: it is present with a different
state), the emitted map holds exactly those names with their snapshot
states, and the empty name list emits an empty snapshot on every publish. -/
theorem watchAllServices_emission
    (action : ServiceAction) (target : State) (services : List String)
    (states : ServiceStates) (hnd : services.Nodup) :
    ((watchAllServicesOnSnapshot action target services states).isSome
        ↔ ∀ n ∈ services, satisfiesAction action target states n = true)
    ∧ (∀ em, watchAllServicesOnSnapshot action target services states = some em →
        ∀ n v, ((n, v) ∈ em ↔ n ∈ services ∧ List.lookup n states = some v
            ∧ satisfiesAction action target states n = true))
    ∧ (services = [] → watchAllServicesOnSnapshot action target services states = some []) := by
  have hfold : services.foldl (watchStep action target states) []
      = services.filterMap (watchEntry action target states) := by
    have h := watchAll_foldl action target states services [] hnd (by intro n _; rfl)
    simpa using h
  have hiff : ((services.filterMap (watchEntry action target states)).length
        = services.length)
      ↔ (∀ n ∈ services, satisfiesAction action target states n = true) := by
    rw [length_filterMap_eq_length_iff]
    constructor
    · intro h n hn
      rw [← watchEntry_isSome_iff]
      exact h n hn
    · intro h n hn
      rw [watchEntry_isSome_iff]
      exact h n hn
  refine ⟨?_, ?_, ?_⟩
  · rw [watchAllServicesOnSnapshot_eq_foldl, hfold]
    by_cases hc : (services.filterMap (watchEntry action target states)).length
        = services.length
    · simp only [hc, if_pos, Option.isSome_some, true_iff]
      exact hiff.mp hc
    · simp only [hc, if_neg, Option.isSome_none, false_iff, not_forall]
      have h2 := fun hall => hc (hiff.mpr hall)
      simpa using h2
  · intro em hem n v
    rw [watchAllServicesOnSnapshot_eq_foldl, hfold] at hem
    by_cases hc : (services.filterMap (watchEntry action target states)).length
        = services.length
    · rw [if_pos hc] at hem
      have hem2 : services.filterMap (watchEntry action target states) = em :=
        Option.some.inj hem
      subst hem2
      constructor
      · intro hmem
        obtain ⟨a, ha, hga⟩ := List.mem_filterMap.mp hmem
        obtain ⟨h1, h2, h3⟩ := watchEntry_eq_some action target states a (n, v) hga
        have hna : n = a := h1
        subst hna
        exact ⟨ha, h2, h3⟩
      · rintro ⟨hn, hl, hs⟩
        refine List.mem_filterMap.mpr ⟨n, hn, ?_⟩
        cases action with
        | Entering =>
            have hv : v = target := by
              simpa [satisfiesAction, hl] using hs
            simp [watchEntry, hl, hv]
        | Exiting =>
            have hv : v ≠ target := by
              simpa [satisfiesAction, hl] using hs
            simp [watchEntry, hl, hv]
    · rw [if_neg hc] at hem
      exact absurd hem (by simp)
  · intro h
    subst h
    rfl

/-- Witness for C6 at a concrete snapshot where both distinct names satisfy
the Entering predicate. -/
theorem watchAllServices_emission_witness :
    ((watchAllServicesOnSnapshot ServiceAction.Entering State.run ["a", "b"]
        [("a", State.run), ("b", State.run), ("c", State.idle)]).isSome
      ↔ ∀ n ∈ ["a", "b"], satisfiesAction ServiceAction.Entering State.run
        [("a", State.run), ("b", State.run), ("c", State.idle)] n = true)
    ∧ (∀ em, watchAllServicesOnSnapshot ServiceAction.Entering State.run ["a", "b"]
        [("a", State.run), ("b", State.run), ("c", State.idle)] = some em →
        ∀ n v, ((n, v) ∈ em ↔ n ∈ ["a", "b"]
            ∧ List.lookup n [("a", State.run), ("b", State.run), ("c", State.idle)] = some v
            ∧ satisfiesAction ServiceAction.Entering State.run
                [("a", State.run), ("b", State.run), ("c", State.idle)] n = true))
    ∧ (["a", "b"] = ([] : List String) →
        watchAllServicesOnSnapshot ServiceAction.Entering State.run ["a", "b"]
          [("a", State.run), ("b", State.run), ("c", State.idle)] = some []) :=
  watchAllServices_emission ServiceAction.Entering State.run ["a", "b"]
    [("a", State.run), ("b", State.run), ("c", State.idle)] (by decide)

/-- Whether the WatchAllStates loop keeps the entry of name `n` when the
non-trivial filtering path runs. -/
def keepEntry (filter : ServiceFilter) (n : String) : Bool :=
  match filter.Mode with
  | FilterMode.Include => filter.Names.contains n
  | FilterMode.Exclude => !(filter.Names.contains n)
  | FilterMode.None => false

/-- The accumulator update of one iteration of the WatchAllStates loop. -/
def statesStep (filter : ServiceFilter) (acc : ServiceStates) (p : String × State) :
    ServiceStates :=
  match filter.Mode with
  | FilterMode.Include => if filter.Names.contains p.1 then mapInsert acc p.1 p.2 else acc
  | FilterMode.Exclude => if filter.Names.contains p.1 then acc else mapInsert acc p.1 p.2
  | FilterMode.None => acc

lemma watchAllStatesOnSnapshot_eq_foldl (filter : ServiceFilter) (states : ServiceStates) :
    watchAllStatesOnSnapshot filter states
      = (if filter.Names.length = 0 ∨ filter.Mode = FilterMode.None then states
          else states.foldl (statesStep filter) []) := rfl

lemma statesStep_keep (filter : ServiceFilter) (acc : ServiceStates) (p : String × State)
    (hk : keepEntry filter p.1 = true) (hlacc : List.lookup p.1 acc = none) :
    statesStep filter acc p = acc ++ [p] := by
  cases hm : filter.Mode <;> simp [keepEntry, hm] at hk <;>
    simp [statesStep, hm, hk, mapInsert_fresh acc p.1 p.2 hlacc]

lemma statesStep_drop (filter : ServiceFilter) (acc : ServiceStates) (p : String × State)
    (hk : keepEntry filter p.1 = false) :
    statesStep filter acc p = acc := by
  cases hm : filter.Mode <;> simp [keepEntry, hm] at hk ⊢ <;>
    simp [statesStep, hm, hk]

lemma statesFoldl (filter : ServiceFilter) :
    ∀ (states : ServiceStates) (acc : ServiceStates),
    ((states.map Prod.fst).Nodup) →
    (∀ p ∈ states, List.lookup p.1 acc = none) →
    states.foldl (statesStep filter) acc
      = acc ++ states.filter (fun p => keepEntry filter p.1) := by
  intro states
  induction states with
  | nil =>
      intro acc _ _
      simp
  | cons p t ih =>
      intro acc hnd hacc
      have hnd2 : (p.1 :: t.map Prod.fst).Nodup := by
        rw [List.map_cons] at hnd
        exact hnd
      have hndp : p.1 ∉ t.map Prod.fst := (List.nodup_cons.mp hnd2).1
      have hndt : (t.map Prod.fst).Nodup := (List.nodup_cons.mp hnd2).2
      have hlacc : List.lookup p.1 acc = none := hacc p (List.mem_cons_self _ _)
      cases hk : keepEntry filter p.1 with
      | true =>
          have hrest : ∀ q ∈ t, List.lookup q.1 (acc ++ [p]) = none := by
            intro q hq
            rw [lookup_append_left_none q.1 acc [p] (hacc q (List.mem_cons_of_mem _ hq))]
            have hne : q.1 ≠ p.1 := by
              intro hEq
              exact hndp (hEq ▸ List.mem_map_of_mem Prod.fst hq)
            have hba : (q.1 == p.1) = false := beq_eq_false_iff_ne.mpr hne
            simp [List.lookup, hba]
          rw [List.foldl_cons, statesStep_keep filter acc p hk hlacc,
            ih (acc ++ [p]) hndt hrest, List.filter_cons_of_pos (by simpa using hk)]
          simp
      | false =>
          have hrest : ∀ q ∈ t, List.lookup q.1 acc = none := by
            intro q hq
            exact hacc q (List.mem_cons_of_mem _ hq)
          rw [List.foldl_cons, statesStep_drop filter acc p hk,
            ih acc hndt hrest, List.filter_cons_of_neg (by simp [hk])]

/-- C7: WatchAllStates forwards the snapshot unchanged when the mode is None
or the name set is empty; with a non-empty name set, mode Include emits
exactly the entries named by the filter and mode Exclude exactly the entries
not named by it. The snapshot is a Go map, so its association list carries
pairwise distinct keys. -/
theorem watchAllStates_filter_semantics (filter : ServiceFilter) (states : ServiceStates)
    (hnd : (states.map Prod.fst).Nodup) :
    (filter.Mode = FilterMode.None ∨ filter.Names = [] →
        watchAllStatesOnSnapshot filter states = states)
    ∧ (filter.Mode = FilterMode.Include → filter.Names ≠ [] →
        ∀ n v, ((n, v) ∈ watchAllStatesOnSnapshot filter states
          ↔ (n, v) ∈ states ∧ n ∈ filter.Names))
    ∧ (filter.Mode = FilterMode.Exclude → filter.Names ≠ [] →
        ∀ n v, ((n, v) ∈ watchAllStatesOnSnapshot filter states
          ↔ (n, v) ∈ states ∧ n ∉ filter.Names)) := by
  refine ⟨?_, ?_, ?_⟩
  · intro h
    rcases h with h | h
    · rw [watchAllStatesOnSnapshot_eq_foldl, if_pos (Or.inr h)]
    · rw [watchAllStatesOnSnapshot_eq_foldl, if_pos (Or.inl (by simp [h]))]
  · intro hm hne n v
    have hcond : ¬(filter.Names.length = 0 ∨ filter.Mode = FilterMode.None) := by
      simp [hm, List.length_eq_zero]
      exact hne
    rw [watchAllStatesOnSnapshot_eq_foldl, if_neg hcond,
      statesFoldl filter states [] hnd (by intro p _; rfl)]
    simp only [List.nil_append, List.mem_filter]
    constructor
    · rintro ⟨h1, h2⟩
      refine ⟨h1, ?_⟩
      simpa [keepEntry, hm] using h2
    · rintro ⟨h1, h2⟩
      refine ⟨h1, ?_⟩
      simpa [keepEntry, hm] using h2
  · intro hm hne n v
    have hcond : ¬(filter.Names.length = 0 ∨ filter.Mode = FilterMode.None) := by
      simp [hm, List.length_eq_zero]
      exact hne
    rw [watchAllStatesOnSnapshot_eq_foldl, if_neg hcond,
      statesFoldl filter states [] hnd (by intro p _; rfl)]
    simp only [List.nil_append, List.mem_filter]
    constructor
    · rintro ⟨h1, h2⟩
      refine ⟨h1, ?_⟩
      simpa [keepEntry, hm] using h2
    · rintro ⟨h1, h2⟩
      refine ⟨h1, ?_⟩
      simpa [keepEntry, hm] using h2

/-- Witness for C7 at a concrete snapshot and the three filter modes. -/
theorem watchAllStates_filter_semantics_witness :
    watchAllStatesOnSnapshot ⟨FilterMode.None, ["a"]⟩ [("a", State.run), ("b", State.idle)]
        = [("a", State.run), ("b", State.idle)]
    ∧ ((("a", State.run)) ∈ watchAllStatesOnSnapshot ⟨FilterMode.Include, ["a"]⟩
        [("a", State.run), ("b", State.idle)]
      ↔ (("a", State.run)) ∈ ([("a", State.run), ("b", State.idle)] : ServiceStates)
          ∧ "a" ∈ ["a"])
    ∧ ((("b", State.idle)) ∈ watchAllStatesOnSnapshot ⟨FilterMode.Exclude, ["a"]⟩
        [("a", State.run), ("b", State.idle)]
      ↔ (("b", State.idle)) ∈ ([("a", State.run), ("b", State.idle)] : ServiceStates)
          ∧ "b" ∉ ["a"]) :=
  ⟨(watchAllStates_filter_semantics ⟨FilterMode.None, ["a"]⟩
      [("a", State.run), ("b", State.idle)] (by decide)).1 (Or.inl rfl),
   (watchAllStates_filter_semantics ⟨FilterMode.Include, ["a"]⟩
      [("a", State.run), ("b", State.idle)] (by decide)).2.1 rfl (by decide) "a" State.run,
   (watchAllStates_filter_semantics ⟨FilterMode.Exclude, ["a"]⟩
      [("a", State.run), ("b", State.idle)] (by decide)).2.2 rfl (by decide) "b" State.idle⟩

lemma lookup_filter_self_none (g : String) (l : List (String × Nat)) :
    List.lookup g (l.filter fun p => !(p.1 == g)) = none := by
  induction l with
  | nil => rfl
  | cons p t ih =>
      cases he : (p.1 == g) with
      | true => simp [List.filter_cons, he, ih]
      | false =>
          have hne : p.1 ≠ g := by
            intro hEq
            simp [hEq] at he
          have hba : (g == p.1) = false := beq_eq_false_iff_ne.mpr (Ne.symm hne)
          simp [List.filter_cons, he, List.lookup, hba, ih]

/-- C8: the topic operations fail exactly as enumerated. Subscribe fails
only on a closed topic or when the consumer group exists and ErrIfExists is
set, otherwise it returns the existing channel unchanged or registers a
fresh one; Unsubscribe fails only on a closed topic or an unknown group;
Close fails only when already closed; closing twice yields AlreadyClosed on
the second call and unsubscribing the same group twice yields GroupUnknown
on the second call. -/
theorem topic_failure_modes :
    (∀ (t : topic) (conf : SubscriberConfig),
        t.closed = true → t.Subscribe conf = Except.error TopicError.TopicClosed)
    ∧ (∀ (t : topic) (conf : SubscriberConfig) (ch : Nat),
        t.closed = false → List.lookup conf.ConsumerGroup t.subscribers = some ch →
        conf.ErrIfExists = true →
        t.Subscribe conf = Except.error (TopicError.GroupExists conf.ConsumerGroup))
    ∧ (∀ (t : topic) (conf : SubscriberConfig) (ch : Nat),
        t.closed = false → List.lookup conf.ConsumerGroup t.subscribers = some ch →
        conf.ErrIfExists = false → t.Subscribe conf = Except.ok (ch, t))
    ∧ (∀ (t : topic) (conf : SubscriberConfig),
        t.closed = false → List.lookup conf.ConsumerGroup t.subscribers = none →
        ∃ t2, t.Subscribe conf = Except.ok (t.nextCh, t2)
          ∧ List.lookup conf.ConsumerGroup t2.subscribers = some t.nextCh
          ∧ t2.closed = false)
    ∧ (∀ (t : topic) (g : String),
        t.closed = true → t.Unsubscribe g = Except.error TopicError.TopicClosed)
    ∧ (∀ (t : topic) (g : String),
        t.closed = false → List.lookup g t.subscribers = none →
        t.Unsubscribe g = Except.error (TopicError.GroupUnknown g))
    ∧ (∀ (t : topic) (g : String) (ch : Nat),
        t.closed = false → List.lookup g t.subscribers = some ch →
        ∃ t2, t.Unsubscribe g = Except.ok t2 ∧ t2.closed = false
          ∧ List.lookup g t2.subscribers = none)
    ∧ (∀ t : topic, t.closed = true → t.Close = Except.error TopicError.AlreadyClosed)
    ∧ (∀ t : topic, t.closed = false →
        t.Close = Except.ok { t with closed := true, subscribers := [] })
    ∧ (∀ (t t2 : topic), t.Close = Except.ok t2 →
        t2.Close = Except.error TopicError.AlreadyClosed)
    ∧ (∀ (t t2 : topic) (g : String), t.Unsubscribe g = Except.ok t2 →
        t2.Unsubscribe g = Except.error (TopicError.GroupUnknown g)) := by
  refine ⟨?_, ?_, ?_, ?_, ?_, ?_, ?_, ?_, ?_, ?_, ?_⟩
  · intro t conf hc
    simp [topic.Subscribe, hc]
  · intro t conf ch hc hl he
    simp [topic.Subscribe, hc, hl, he]
  · intro t conf ch hc hl he
    simp [topic.Subscribe, hc, hl, he]
  · intro t conf hc hl
    refine ⟨⟨t.closed, t.subscribers ++ [(conf.ConsumerGroup, t.nextCh)], t.nextCh + 1⟩,
      ?_, ?_, ?_⟩
    · simp [topic.Subscribe, hc, hl]
    · simp only []
      rw [lookup_append_left_none conf.ConsumerGroup t.subscribers _ hl]
      simp [List.lookup]
    · exact hc
  · intro t g hc
    simp [topic.Unsubscribe, hc]
  · intro t g hc hl
    simp [topic.Unsubscribe, hc, hl]
  · intro t g ch hc hl
    refine ⟨⟨t.closed, t.subscribers.filter fun p => !(p.1 == g), t.nextCh⟩,
      ?_, ?_, ?_⟩
    · simp [topic.Unsubscribe, hc, hl]
    · simp [hc]
    · exact lookup_filter_self_none g t.subscribers
  · intro t hc
    simp [topic.Close, hc]
  · intro t hc
    simp [topic.Close, hc]
  · intro t t2 h
    cases hc : t.closed with
    | true => simp [topic.Close, hc] at h
    | false =>
        simp [topic.Close, hc] at h
        rw [topic.Close, ← h]
        simp
  · intro t t2 g h
    cases hc : t.closed with
    | true => simp [topic.Unsubscribe, hc] at h
    | false =>
        cases hl : List.lookup g t.subscribers with
        | none => simp [topic.Unsubscribe, hc, hl] at h
        | some ch =>
            simp [topic.Unsubscribe, hc, hl] at h
            rw [topic.Unsubscribe, ← h]
            simp [hc, lookup_filter_self_none g t.subscribers]

/-- Witness for C8 at a concrete topic: one subscriber registers, a second
ErrIfExists subscribe fails, unsubscribing twice fails the second time, and
closing twice fails the second time. -/
theorem topic_failure_modes_witness :
    (topic.Subscribe ⟨true, [], 0⟩ ⟨"g", false, 1, BufferPolicy.DropOldest⟩
        = Except.error TopicError.TopicClosed)
    ∧ (topic.Subscribe ⟨false, [("g", 0)], 1⟩ ⟨"g", true, 1, BufferPolicy.DropOldest⟩
        = Except.error (TopicError.GroupExists "g"))
    ∧ (∃ t2, topic.Unsubscribe ⟨false, [("g", 0)], 1⟩ "g" = Except.ok t2
        ∧ t2.closed = false ∧ List.lookup "g" t2.subscribers = none)
    ∧ (∀ t2 : topic, topic.Close ⟨false, [("g", 0)], 1⟩ = Except.ok t2 →
        t2.Close = Except.error TopicError.AlreadyClosed)
    ∧ (∀ t2 : topic, topic.Unsubscribe ⟨false, [("g", 0)], 1⟩ "g" = Except.ok t2 →
        t2.Unsubscribe "g" = Except.error (TopicError.GroupUnknown "g")) :=
  ⟨topic_failure_modes.1 ⟨true, [], 0⟩ ⟨"g", false, 1, BufferPolicy.DropOldest⟩ rfl,
   topic_failure_modes.2.1 ⟨false, [("g", 0)], 1⟩ ⟨"g", true, 1, BufferPolicy.DropOldest⟩ 0
     rfl (by decide) rfl,
   topic_failure_modes.2.2.2.2.2.2.1 ⟨false, [("g", 0)], 1⟩ "g" 0 rfl (by decide),
   fun t2 h => topic_failure_modes.2.2.2.2.2.2.2.2.2.1 ⟨false, [("g", 0)], 1⟩ t2 h,
   fun t2 h => topic_failure_modes.2.2.2.2.2.2.2.2.2.2 ⟨false, [("g", 0)], 1⟩ t2 "g" h⟩

/-- C9: chaining WithFields concatenates the field lists with the newer
fields in front (the b fields, then the a fields, then the pre-existing
fields), while the cancellation scope, the name, the log channel and the
topic handle stay those of the original context. -/
theorem withFields_concatenation (sc : serviceContext) (a b : List Field) :
    (sc.WithFields a).WithFields b
      = ⟨sc.ctx, sc.name, b ++ a ++ sc.fields, sc.logC, sc.icStates⟩ := by
  simp [serviceContext.WithFields]

/-- C10: for a non-empty service name the constructor stores the
("service", name) field twice (the initial slice is appended to itself), and
every DaemonLog record built by the Log method carries those two copies on
top of whatever the call site passes. -/
theorem service_field_duplicated (parent : Nat) (name : String) (logC ic : Nat)
    (h : name ≠ "") :
    (newServiceContextWithCancel parent name logC ic).fields
        = [⟨"service", name⟩, ⟨"service", name⟩]
    ∧ ∀ (level : Level) (msg : String) (extra : List Field),
        List.count (⟨"service", name⟩ : Field)
            ((newServiceContextWithCancel parent name logC ic).logRecord level msg extra).Fields
          = List.count (⟨"service", name⟩ : Field) extra + 2 := by
  constructor
  · simp [newServiceContextWithCancel, h]
  · intro level msg extra
    simp [newServiceContextWithCancel, serviceContext.logRecord, h, List.count_append]

/-- Witness for C10 at a concrete name. -/
theorem service_field_duplicated_witness :
    (newServiceContextWithCancel 0 "api" 0 0).fields
        = [⟨"service", "api"⟩, ⟨"service", "api"⟩]
    ∧ ∀ (level : Level) (msg : String) (extra : List Field),
        List.count (⟨"service", "api"⟩ : Field)
            ((newServiceContextWithCancel 0 "api" 0 0).logRecord level msg extra).Fields
          = List.count (⟨"service", "api"⟩ : Field) extra + 2 :=
  service_field_duplicated 0 "api" 0 0 (by decide)

end Rxd
